import Mathlib

/-!
Verification of the ert job-queue / ensemble-evaluator core.

Each section embeds one part of the source tree shallowly in Lean:

* `Queue` — `src/src/ert/_c_wrappers/job_queue/queue.py` (`JobQueue`).
* `Dispatch` — `src/src/ert/ensemble_evaluator/dispatch.py` (`BatchingDispatcher`).
* `Tracker` — `src/ert/ensemble_evaluator/tracker/evaluator_tracker.py`
  (`EvaluatorTracker`).
* `Snap` — `src/src/ert/ensemble_evaluator/snapshot.py`
  (`_recursive_update`, `Snapshot`, `PartialSnapshot`).

Machine floats of the source (runtimes, wall-clock seconds) are modelled as
rationals; the claims under study only compare and average such quantities.
-/

namespace ErtSpec

/-! ## Queue: src/src/ert/_c_wrappers/job_queue/queue.py

`JobStatusType` and `ThreadStatus` are enums imported by `queue.py` from
modules not present under `src/`; their members are taken from the uses in
`queue.py` itself (the `_queue_state_to_event_type_map` table lists every
`JOB_QUEUE_*` member, and `ThreadStatus.READY/RUNNING/STOPPING/DONE` appear
in `is_active`, `fetch_next_waiting`, `count_running`, `assert_complete`). -/

/-- The `JobStatusType` enum (`JOB_QUEUE_*` values), as enumerated by the
`_queue_state_to_event_type_map` table at the top of `queue.py`. -/
inductive JobStatusType where
  | notActive
  | waiting
  | submitted
  | pending
  | running
  | done
  | exitState
  | isKilled
  | doKill
  | success
  | runningDoneCallback
  | runningExitCallback
  | statusFailure
  | failed
  | doKillNodeFailure
  | unknown
deriving DecidableEq, Repr

/-- The `ThreadStatus` enum members used by `queue.py`. -/
inductive ThreadStatus where
  | ready
  | running
  | stopping
  | done
  | failedThread
deriving DecidableEq, Repr

/-- The per-node state read by `JobQueue`: a `JobQueueNode` exposes `status`
(a `JobStatusType`), `thread_status` (a `ThreadStatus`) and `runtime`
(seconds; a float in the source, modelled as a rational). -/
structure JobNode where
  status : JobStatusType
  thread_status : ThreadStatus
  runtime : ℚ
deriving DecidableEq, Repr

/-- The `JobQueue` state touched by the pure queue logic: `job_list`,
`_stopped`, and the driver's `max_running` hint
(`self.driver.get_max_running()`). -/
structure JobQueue where
  job_list : List JobNode
  stopped : Bool
  driver_max_running : ℕ
deriving DecidableEq, Repr

/-- `count_status`: `len([job for job in self.job_list if job.status == status])`. -/
def JobQueue.count_status (q : JobQueue) (status : JobStatusType) : ℕ :=
  (q.job_list.filter (fun job => job.status = status)).length

/-- `count_running`: `sum(job.thread_status == ThreadStatus.RUNNING for job in self.job_list)`. -/
def JobQueue.count_running (q : JobQueue) : ℕ :=
  q.job_list.countP (fun job => job.thread_status = ThreadStatus.running)

/-- `max_running`: the driver hint, or `len(self.job_list)` when the hint is `0`. -/
def JobQueue.max_running (q : JobQueue) : ℕ :=
  if q.driver_max_running = 0 then q.job_list.length else q.driver_max_running

/-- `available_capacity`: `not self.stopped and self.count_running() < self.max_running()`. -/
def JobQueue.available_capacity (q : JobQueue) : Bool :=
  !q.stopped && decide (q.count_running < q.max_running)

/-- `fetch_next_waiting`: the first job whose thread status is `READY`. -/
def JobQueue.fetch_next_waiting (q : JobQueue) : Option JobNode :=
  q.job_list.find? (fun job => job.thread_status = ThreadStatus.ready)

/-- `kill_all_jobs`: `self._stopped = True`. -/
def JobQueue.kill_all_jobs (q : JobQueue) : JobQueue :=
  { q with stopped := true }

/-- `add_job`: appends the node to `self.job_list` (the C-side handle and the
differ bookkeeping carry no queue-level state used by the claims). -/
def JobQueue.add_job (q : JobQueue) (job : JobNode) : JobQueue :=
  { q with job_list := q.job_list ++ [job] }

/-- Modelled from the spec: `JobQueueNode.run` is not under `src/`; per §4.4
starting a node runs its thread, so the node fetched by `fetch_next_waiting`
(the first `READY` one) becomes thread-`RUNNING`. -/
def runFirstReady : List JobNode → List JobNode
  | [] => []
  | job :: rest =>
    if job.thread_status = ThreadStatus.ready then
      { job with thread_status := ThreadStatus.running } :: rest
    else
      job :: runFirstReady rest

/-- The `while self.available_capacity()` loop of `launch_jobs`, with explicit
fuel.  Each pass converts one `READY` node to `RUNNING`, so
`q.job_list.length` passes always reach the loop's exit condition. -/
def launchLoop : ℕ → JobQueue → JobQueue
  | 0, q => q
  | n + 1, q =>
    if q.available_capacity then
      match q.fetch_next_waiting with
      | none => q
      | some _ => launchLoop n { q with job_list := runFirstReady q.job_list }
    else q

/-- `launch_jobs`: start waiting jobs while there is available capacity. -/
def JobQueue.launch_jobs (q : JobQueue) : JobQueue :=
  launchLoop q.job_list.length q

/-- `LONG_RUNNING_FACTOR = 1.25`. -/
def LONG_RUNNING_FACTOR : ℚ := 5 / 4

/-- `completed_jobs`: `[job for job in self.job_list if job.status == JOB_QUEUE_DONE]`. -/
def JobQueue.completed_jobs (q : JobQueue) : List JobNode :=
  q.job_list.filter (fun job => job.status = JobStatusType.done)

/-- `average_runtime`: `sum(job.runtime for job in completed_jobs) / finished_realizations`. -/
def JobQueue.average_runtime (q : JobQueue) : ℚ :=
  ((q.completed_jobs.map JobNode.runtime).sum) / (q.completed_jobs.length : ℚ)

/-- `stop_long_running_jobs(minimum_required_realizations)`, returning the
list of nodes on which `job.stop()` is called (the only effect of the method
besides logging). -/
def JobQueue.stop_long_running_jobs
    (q : JobQueue) (minimum_required_realizations : ℕ) : List JobNode :=
  let finished_realizations := q.completed_jobs.length
  if finished_realizations = 0 then []
  else if finished_realizations < minimum_required_realizations then []
  else
    q.job_list.filter (fun job =>
      LONG_RUNNING_FACTOR * q.average_runtime < job.runtime)

/-- The capacity predicate as claim C1 words it: not stopped, and the count of
status-`RUNNING` jobs plus the count of status-`PENDING` and status-`SUBMITTED`
jobs is strictly below `max_running`.  (The source's `available_capacity`
instead counts thread-`RUNNING` nodes; see `C1_counterexample`.) -/
def availableCapacityClaimed (q : JobQueue) : Bool :=
  !q.stopped &&
    decide (q.count_status JobStatusType.running +
      (q.count_status JobStatusType.pending +
        q.count_status JobStatusType.submitted) < q.max_running)

/-- The queue-mutating operations of the embedding (claim C10 quantifies over
them).  `stopLongRunning` applies a node-level `stop` action — whose body
lives outside `src/` — to the nodes selected by `stop_long_running_jobs`. -/
inductive QueueOp where
  | addJob (job : JobNode)
  | killAllJobs
  | launchJobs
  | stopLongRunning (minimum_required_realizations : ℕ)

/-- Apply a queue operation; `stopNode` is the (abstract) node-level effect of
`JobQueueNode.stop`, which cannot touch queue-level fields. -/
def QueueOp.apply (stopNode : JobNode → JobNode) : QueueOp → JobQueue → JobQueue
  | .addJob job, q => q.add_job job
  | .killAllJobs, q => q.kill_all_jobs
  | .launchJobs, q => q.launch_jobs
  | .stopLongRunning minReq, q =>
    { q with
      job_list := q.job_list.map (fun job =>
        if job ∈ q.stop_long_running_jobs minReq then stopNode job else job) }

/-! ### Queue lemmas -/

theorem runFirstReady_length (l : List JobNode) : (runFirstReady l).length = l.length := by
  induction l with
  | nil => rfl
  | cons job rest ih =>
    unfold runFirstReady
    by_cases h : job.thread_status = ThreadStatus.ready <;> simp [h, ih]

theorem runFirstReady_countRunning (l : List JobNode) :
    (runFirstReady l).countP (fun job => decide (job.thread_status = ThreadStatus.running)) ≤
      l.countP (fun job => decide (job.thread_status = ThreadStatus.running)) + 1 := by
  induction l with
  | nil => simp [runFirstReady]
  | cons job rest ih =>
    by_cases h : job.thread_status = ThreadStatus.ready
    · rw [runFirstReady, if_pos h]
      simp only [List.countP_cons, h]
      simp only [decide_eq_true_eq]
      norm_num
    · rw [runFirstReady, if_neg h]
      simp only [List.countP_cons]
      omega

theorem launchLoop_stopped (n : ℕ) (q : JobQueue) : (launchLoop n q).stopped = q.stopped := by
  induction n generalizing q with
  | zero => rfl
  | succ n ih =>
    unfold launchLoop
    by_cases hc : q.available_capacity
    · simp only [hc, if_pos]
      cases q.fetch_next_waiting with
      | none => rfl
      | some job => exact ih _
    · simp [hc]

theorem launchLoop_driver (n : ℕ) (q : JobQueue) :
    (launchLoop n q).driver_max_running = q.driver_max_running := by
  induction n generalizing q with
  | zero => rfl
  | succ n ih =>
    unfold launchLoop
    by_cases hc : q.available_capacity
    · simp only [hc, if_pos]
      cases q.fetch_next_waiting with
      | none => rfl
      | some job => exact ih _
    · simp [hc]

theorem launchLoop_length (n : ℕ) (q : JobQueue) :
    (launchLoop n q).job_list.length = q.job_list.length := by
  induction n generalizing q with
  | zero => rfl
  | succ n ih =>
    unfold launchLoop
    by_cases hc : q.available_capacity
    · simp only [hc, if_pos]
      cases q.fetch_next_waiting with
      | none => rfl
      | some job => rw [ih]; simp [runFirstReady_length]
    · simp [hc]

theorem launchLoop_max_running (n : ℕ) (q : JobQueue) :
    (launchLoop n q).max_running = q.max_running := by
  unfold JobQueue.max_running
  rw [launchLoop_driver, launchLoop_length]

theorem launchLoop_count_running_le (n : ℕ) (q : JobQueue)
    (h : q.count_running ≤ q.max_running) :
    (launchLoop n q).count_running ≤ q.max_running := by
  induction n generalizing q with
  | zero => exact h
  | succ n ih =>
    unfold launchLoop
    by_cases hc : q.available_capacity
    · simp only [hc, if_pos]
      cases q.fetch_next_waiting with
      | none => exact h
      | some job =>
        have hlt : q.count_running < q.max_running := by
          have := hc
          unfold JobQueue.available_capacity at this
          simp only [Bool.and_eq_true, decide_eq_true_eq] at this
          exact this.2
        set q' : JobQueue := { q with job_list := runFirstReady q.job_list } with hq'
        have hmax : q'.max_running = q.max_running := by
          unfold JobQueue.max_running
          simp [hq', runFirstReady_length]
        have hcount : q'.count_running ≤ q.count_running + 1 := by
          unfold JobQueue.count_running
          exact runFirstReady_countRunning q.job_list
        have : q'.count_running ≤ q'.max_running := by
          rw [hmax]; omega
        have := ih q' this
        rw [hmax] at this
        exact this
    · simp only [hc]
      simp only [Bool.false_eq_true, if_false]
      exact h

theorem launch_jobs_count_running_le (q : JobQueue)
    (h : q.count_running ≤ q.max_running) :
    q.launch_jobs.count_running ≤ q.max_running :=
  launchLoop_count_running_le q.job_list.length q h

theorem launch_jobs_stopped_noop (q : JobQueue) (h : q.stopped = true) :
    q.launch_jobs = q := by
  unfold JobQueue.launch_jobs
  cases hn : q.job_list.length with
  | zero => rfl
  | succ n =>
    unfold launchLoop
    have : q.available_capacity = false := by
      unfold JobQueue.available_capacity
      simp [h]
    simp [this]

/-! ### Claim C1 -/

/-- A queue whose single job is status-`DONE` but whose node thread is still
running its done-callback (thread status `RUNNING`). -/
def qC1 : JobQueue :=
  { job_list := [⟨JobStatusType.done, ThreadStatus.running, 0⟩]
    stopped := false
    driver_max_running := 1 }

/-- C1 counterexample: on `qC1` the claimed formula (status-level counts) says
there is capacity, but `available_capacity` — which counts thread-`RUNNING`
nodes — returns false.  The claimed iff fails on the code. -/
theorem C1_counterexample :
    availableCapacityClaimed qC1 = true ∧ qC1.available_capacity = false := by
  constructor <;> rfl

/-- C1 (amended): `available_capacity()` is true iff the queue is not stopped
and the number of nodes whose *thread* status is `RUNNING` is strictly less
than `max_running()`; consequently, whenever at most `max_running` nodes are
thread-`RUNNING`, `launch_jobs` keeps the count of thread-`RUNNING` nodes at
most `max_running`. -/
theorem C1_capacity_thread_running (q : JobQueue) :
    (q.available_capacity = true ↔
      q.stopped = false ∧ q.count_running < q.max_running) ∧
    (q.count_running ≤ q.max_running →
      q.launch_jobs.count_running ≤ q.max_running) := by
  constructor
  · unfold JobQueue.available_capacity
    simp [Bool.and_eq_true, decide_eq_true_eq]
  · exact launch_jobs_count_running_le q

/-- Witness queue for C1: one `READY` node, capacity one. -/
def qC1w : JobQueue :=
  { job_list := [⟨JobStatusType.waiting, ThreadStatus.ready, 0⟩]
    stopped := false
    driver_max_running := 1 }

theorem C1_capacity_thread_running_witness :
    qC1w.count_running ≤ qC1w.max_running ∧
      qC1w.launch_jobs.count_running ≤ qC1w.max_running :=
  ⟨by decide, (C1_capacity_thread_running qC1w).2 (by decide)⟩

/-! ### Claim C2 -/

/-- A queue of two completed (`JOB_QUEUE_DONE`) jobs with runtimes 10 s and
30 s; average runtime 20 s, long-runner threshold 25 s. -/
def qC2 : JobQueue :=
  { job_list :=
      [⟨JobStatusType.done, ThreadStatus.done, 10⟩,
       ⟨JobStatusType.done, ThreadStatus.done, 30⟩]
    stopped := false
    driver_max_running := 0 }

/-- C2 counterexample: with two completed jobs (runtimes 10 and 30) and
`minimum_required_realizations = 2`, the job with runtime 30 is stopped even
though its status is `DONE`, not `RUNNING` — the loop in
`stop_long_running_jobs` never checks the node's status. -/
theorem C2_counterexample :
    qC2.stop_long_running_jobs 2 = [⟨JobStatusType.done, ThreadStatus.done, 30⟩] ∧
      JobStatusType.done ≠ JobStatusType.running := by
  constructor
  · simp only [qC2, JobQueue.stop_long_running_jobs, JobQueue.completed_jobs,
      JobQueue.average_runtime, LONG_RUNNING_FACTOR]
    norm_num [List.filter]
  · intro h; cases h

/-- C2 (amended): a node is stopped iff at least one job has completed, the
number of completed jobs is at least `minimum_required_realizations`, and the
node's runtime strictly exceeds `1.25 ×` the average runtime of the completed
jobs — regardless of the node's own status. -/
theorem C2_stop_long_running_characterization
    (q : JobQueue) (minReq : ℕ) (job : JobNode) :
    job ∈ q.stop_long_running_jobs minReq ↔
      0 < q.completed_jobs.length ∧ minReq ≤ q.completed_jobs.length ∧
        job ∈ q.job_list ∧ LONG_RUNNING_FACTOR * q.average_runtime < job.runtime := by
  unfold JobQueue.stop_long_running_jobs
  by_cases h0 : q.completed_jobs.length = 0
  · simp [h0]
  · by_cases hmin : q.completed_jobs.length < minReq
    · simp only [h0, if_false, hmin, if_true]
      simp
      omega
    · simp only [h0, if_false, hmin, if_false]
      rw [List.mem_filter]
      simp only [decide_eq_true_eq]
      constructor
      · rintro ⟨hmem, hrt⟩
        exact ⟨by omega, by omega, hmem, hrt⟩
      · rintro ⟨-, -, hmem, hrt⟩
        exact ⟨hmem, hrt⟩

/-! ### Claim C10 -/

/-- C10: once `kill_all_jobs` has set the stopped flag, no queue operation of
the embedding resets it, `available_capacity()` is false and `launch_jobs`
changes nothing. -/
theorem C10_stopped_is_permanent
    (stopNode : JobNode → JobNode) (op : QueueOp) (q : JobQueue)
    (h : q.stopped = true) :
    (QueueOp.apply stopNode op q).stopped = true ∧
      q.available_capacity = false ∧ q.launch_jobs = q := by
  refine ⟨?_, ?_, launch_jobs_stopped_noop q h⟩
  · cases op with
    | addJob job => simpa [QueueOp.apply, JobQueue.add_job] using h
    | killAllJobs => rfl
    | launchJobs =>
      show q.launch_jobs.stopped = true
      unfold JobQueue.launch_jobs
      rw [launchLoop_stopped]
      exact h
    | stopLongRunning minReq => simpa [QueueOp.apply] using h
  · unfold JobQueue.available_capacity
    simp [h]

/-- Witness queue for C10: a stopped queue holding one ready node. -/
def qC10 : JobQueue :=
  { job_list := [⟨JobStatusType.waiting, ThreadStatus.ready, 0⟩]
    stopped := true
    driver_max_running := 0 }

theorem C10_stopped_is_permanent_witness :
    (QueueOp.apply id QueueOp.killAllJobs qC10).stopped = true ∧
      qC10.available_capacity = false ∧ qC10.launch_jobs = qC10 :=
  C10_stopped_is_permanent id QueueOp.killAllJobs qC10 (by decide)

/-! ## Dispatch: src/src/ert/ensemble_evaluator/dispatch.py

`BatchingDispatcher.__init__` stores `timeout`/`max_batch` twice: the mutable
working copies and the `_input_*` originals.  `_work` drains up to
`_max_batch` buffered events and, in `done_logger`, re-derives the working
copies from the originals depending on the tick's processing wall time.
Wall-clock time is an input of the embedding (`processing_time`). -/

/-- The four timing fields of a `BatchingDispatcher`.  `timeout` is in
seconds (a float in the source, modelled as a rational); `max_batch` is an
int (`int(self._input_max_batch / 10)` truncates toward zero, which on
naturals is division flooring). -/
structure BatcherParams where
  timeout : ℚ
  input_timeout : ℚ
  max_batch : ℕ
  input_max_batch : ℕ
deriving DecidableEq, Repr

/-- `__init__(loop, timeout, max_batch=100)`: both working and `_input_*`
copies start at the configured values. -/
def BatcherParams.init (timeout : ℚ) (max_batch : ℕ) : BatcherParams :=
  { timeout := timeout
    input_timeout := timeout
    max_batch := max_batch
    input_max_batch := max_batch }

/-- `done_logger` in `_work`: with a processing wall time of at least 10 s,
set `_max_batch` to `int(_input_max_batch / 10)` and `_timeout` to
`10 * _input_timeout`; otherwise restore both originals. -/
def doneLogger (p : BatcherParams) (processing_time : ℚ) : BatcherParams :=
  if 10 ≤ processing_time then
    { p with max_batch := p.input_max_batch / 10, timeout := 10 * p.input_timeout }
  else
    { p with max_batch := p.input_max_batch, timeout := p.input_timeout }

/-- One `_work` tick over an event buffer: an empty buffer returns at once
(no timing, no adjustment); otherwise the first `_max_batch` events are
drained and `done_logger` runs with the tick's processing wall time.
The fan-out to handlers does not touch the timing fields and is left to
`doneCallbackFuncs`/`handle_event` below. -/
def workTick {α : Type} (p : BatcherParams) (buffer : List α) (processing_time : ℚ) :
    BatcherParams × List α :=
  match buffer with
  | [] => (p, [])
  | _ :: _ => (doneLogger p processing_time, buffer.drop p.max_batch)

/-! ### Claim C7 -/

/-- C7: on a tick with events, processing wall time `≥ 10 s` sets `max_batch`
to a tenth of the originally configured value and `timeout` to ten times the
originally configured value; a tick under 10 s restores both; the stored
originals are never modified, so repeated slow ticks do not compound. -/
theorem C7_adaptive_throttling {α : Type} (p : BatcherParams) (buffer : List α)
    (t : ℚ) (hbuf : buffer ≠ []) :
    (10 ≤ t →
      (workTick p buffer t).1.max_batch = p.input_max_batch / 10 ∧
      (workTick p buffer t).1.timeout = 10 * p.input_timeout) ∧
    (t < 10 →
      (workTick p buffer t).1.max_batch = p.input_max_batch ∧
      (workTick p buffer t).1.timeout = p.input_timeout) ∧
    (workTick p buffer t).1.input_max_batch = p.input_max_batch ∧
    (workTick p buffer t).1.input_timeout = p.input_timeout := by
  match buffer with
  | [] => exact absurd rfl hbuf
  | b :: rest =>
    unfold workTick doneLogger
    by_cases h : 10 ≤ t
    · simp [h]
    · simp [h]

theorem C7_adaptive_throttling_witness :
    (((10:ℚ) ≤ 12 →
      (workTick (BatcherParams.init 2 100) [0] 12).1.max_batch = 100 / 10 ∧
      (workTick (BatcherParams.init 2 100) [0] 12).1.timeout = 10 * 2) ∧
    ((12:ℚ) < 10 →
      (workTick (BatcherParams.init 2 100) [0] 12).1.max_batch = 100 ∧
      (workTick (BatcherParams.init 2 100) [0] 12).1.timeout = 2) ∧
    (workTick (BatcherParams.init 2 100) [(0:ℕ)] 12).1.input_max_batch = 100 ∧
    (workTick (BatcherParams.init 2 100) [0] 12).1.input_timeout = 2) :=
  C7_adaptive_throttling (BatcherParams.init 2 100) [(0:ℕ)] 12 (by decide)

/-! ### Claim C9 -/

/-- How the dispatcher task can finish, as observed by `_done_callback`:
`self._task.exception()` returns `None` (normal finish), returns an exception
(failure), or itself raises `asyncio.CancelledError` (the task was
cancelled). -/
inductive TaskOutcome where
  | normal
  | failedException
  | cancelled
deriving DecidableEq, Repr

/-- `_done_callback`: the list of handlers invoked on completion.  A normal
finish returns early; a failure falls through to the handlers registered for
`ENSEMBLE_FAILED`; a cancellation is logged in the `except` arm and then
*also* falls through to those same handlers (the early `return` sits only in
the normal branch). -/
def doneCallbackFuncs {H : Type} (outcome : TaskOutcome) (failedHandlers : List H) :
    List H :=
  match outcome with
  | .normal => []
  | .failedException => failedHandlers
  | .cancelled => failedHandlers

/-- C9 counterexample: with one registered `ENSEMBLE_FAILED` handler, a
cancelled dispatcher task still invokes it — the claim that nothing besides
logging happens on cancellation is false. -/
theorem C9_counterexample :
    doneCallbackFuncs TaskOutcome.cancelled [(0 : ℕ)] ≠ [] := by
  decide

/-- C9 (amended): an exceptional finish invokes the `ENSEMBLE_FAILED`
handlers, and so does a cancellation (after logging it); only a normal finish
invokes none. -/
theorem C9_done_callback_dispatch {H : Type} (failedHandlers : List H) :
    doneCallbackFuncs TaskOutcome.failedException failedHandlers = failedHandlers ∧
    doneCallbackFuncs TaskOutcome.cancelled failedHandlers = failedHandlers ∧
    doneCallbackFuncs TaskOutcome.normal failedHandlers = ([] : List H) :=
  ⟨rfl, rfl, rfl⟩

/-! ## Tracker: src/ert/ensemble_evaluator/tracker/evaluator_tracker.py

`EvaluatorTracker` stores `_iter_snapshot : Dict[int, Snapshot]` and consumes
the events the drainer thread forwards (`EE_SNAPSHOT`, `EE_SNAPSHOT_UPDATE`,
and the `DONE` sentinel).  The `Snapshot`/`PartialSnapshot` classes it uses
come from `ert_shared.ensemble_evaluator.entity.snapshot`, which is not under
`src/`; the step relation is therefore parametrised by their operations
(`mkSnapshot`, `fromCloudevent`, `mergeEvent`) and by the realization
statuses `get_reals` exposes. -/

/-- Realization states; modelled from the spec: the status vocabulary of
`ert_shared.status.entity.state` (not under `src/`), §3/§4.1 of the spec. -/
inductive RealizationState where
  | waiting
  | pending
  | running
  | failed
  | finished
  | unknown
deriving DecidableEq, Repr

/-- `iget d k`: dictionary lookup (`k in d` / `d[k]`). -/
def iget {S : Type} : List (ℕ × S) → ℕ → Option S
  | [], _ => none
  | (k, v) :: rest, key => if k = key then some v else iget rest key

/-- `iset d k v`: dictionary assignment `d[k] = v`. -/
def iset {S : Type} : List (ℕ × S) → ℕ → S → List (ℕ × S)
  | [], key, v => [(key, v)]
  | (k, w) :: rest, key, v =>
    if k = key then (key, v) :: rest else (k, w) :: iset rest key v

/-- `max(list(d.keys()))` (used by `_progress` on a non-empty dict). -/
def maxKey {S : Type} (d : List (ℕ × S)) : ℕ :=
  (d.map Prod.fst).foldr max 0

/-- Failure modes of `_progress`: Python's `ZeroDivisionError` from
`float(done_reals) / total_reals` (or from the final division by
`phaseCount()`), and a key miss on `self._iter_snapshot[current_iter]`
(unreachable for a dict's own maximal key). -/
inductive ProgressErr where
  | zeroDivision
  | keyError
deriving DecidableEq, Repr

/-- `EvaluatorTracker._progress`: `1.0` when finished, `0.0` when no snapshot
is stored, else `(current_iter + done_reals/total_reals) / phaseCount()`
where `current_iter = max(self._iter_snapshot.keys())` and `done_reals`
counts realizations in `FINISHED` or `FAILED`.  The two divisions are not
guarded. -/
def progressTracker {S : Type} (getRealStatuses : S → List RealizationState)
    (is_finished : Bool) (phaseCount : ℕ) (iter_snapshot : List (ℕ × S)) :
    Except ProgressErr ℚ :=
  if is_finished then .ok 1
  else if iter_snapshot.isEmpty then .ok 0
  else
    let current_iter := maxKey iter_snapshot
    match iget iter_snapshot current_iter with
    | none => .error ProgressErr.keyError
    | some snap =>
      let statuses := getRealStatuses snap
      let done_reals := statuses.countP (fun st =>
        decide (st = RealizationState.finished) || decide (st = RealizationState.failed))
      let total_reals := statuses.length
      if total_reals = 0 then .error ProgressErr.zeroDivision
      else if phaseCount = 0 then .error ProgressErr.zeroDivision
      else .ok (((current_iter : ℚ) + (done_reals : ℚ) / (total_reals : ℚ)) / (phaseCount : ℚ))

/-- The events `track()` receives from the work queue: the drainer forwards
only `EE_SNAPSHOT` and `EE_SNAPSHOT_UPDATE` cloud events (their `data` holds
the `iter` field) plus the `DONE` sentinel string. -/
inductive TrackerInput (D : Type) where
  | eeSnapshot (iter : ℕ) (data : D)
  | eeSnapshotUpdate (iter : ℕ) (data : D)
  | doneSentinel

/-- The events `track()` yields to its consumer. -/
inductive TrackerOutput (S P : Type) where
  | fullSnapshotEvent (progress : ℚ) (iteration : ℕ) (snapshot : S)
  | snapshotUpdateEvent (progress : ℚ) (iteration : ℕ) (updateEvent : P)
  | endEvent (failed : Bool)

/-- How one `track()` step can fail: `OutOfOrderSnapshotUpdateException`, or
an exception escaping `self._progress()`. -/
inductive TrackerErr where
  | outOfOrderSnapshotUpdate (iter : ℕ)
  | progressFailed (e : ProgressErr)
deriving DecidableEq, Repr

/-- One iteration of the `while True` loop of `EvaluatorTracker.track` on a
work-queue element: returns the updated `_iter_snapshot` and the yielded
event.  `mkSnapshot` is `Snapshot(event.data)`, `fromCloudevent` is
`PartialSnapshot(stored).from_cloudevent(event)` and `mergeEvent` is
`stored.merge_event(...)` — all from `ert_shared`, outside `src/`.  In the
source `merge_event` mutates the stored snapshot in place, so `_progress`
runs on the post-merge state. -/
def trackStep {S P D : Type}
    (mkSnapshot : D → S)
    (fromCloudevent : S → D → P)
    (mergeEvent : S → P → S)
    (getRealStatuses : S → List RealizationState)
    (is_finished : Bool) (phaseCount : ℕ) (hasRunFailed : Bool)
    (st : List (ℕ × S)) :
    TrackerInput D → Except TrackerErr (List (ℕ × S) × TrackerOutput S P)
  | .doneSentinel => .ok (st, .endEvent hasRunFailed)
  | .eeSnapshot iter data =>
    let snapshot := mkSnapshot data
    let st' := iset st iter snapshot
    match progressTracker getRealStatuses is_finished phaseCount st' with
    | .error e => .error (.progressFailed e)
    | .ok pr => .ok (st', .fullSnapshotEvent pr iter snapshot)
  | .eeSnapshotUpdate iter data =>
    match iget st iter with
    | none => .error (.outOfOrderSnapshotUpdate iter)
    | some snap =>
      let updateEvent := fromCloudevent snap data
      let st' := iset st iter (mergeEvent snap updateEvent)
      match progressTracker getRealStatuses is_finished phaseCount st' with
      | .error e => .error (.progressFailed e)
      | .ok pr => .ok (st', .snapshotUpdateEvent pr iter updateEvent)

/-! ### Claim C4 -/

/-- C4: on `EE_SNAPSHOT_UPDATE` for an iteration with no stored snapshot the
tracker step fails with the out-of-order error; otherwise it builds the
update from the event, merges it into the stored snapshot for that
iteration, and yields a `SnapshotUpdateEvent` carrying that update and the
progress value. -/
theorem C4_track_out_of_order {S P D : Type}
    (mkSnapshot : D → S) (fromCloudevent : S → D → P) (mergeEvent : S → P → S)
    (getRealStatuses : S → List RealizationState)
    (is_finished : Bool) (phaseCount : ℕ) (hasRunFailed : Bool)
    (st : List (ℕ × S)) (iter : ℕ) (data : D) :
    (iget st iter = none →
      trackStep mkSnapshot fromCloudevent mergeEvent getRealStatuses
          is_finished phaseCount hasRunFailed st (.eeSnapshotUpdate iter data)
        = .error (.outOfOrderSnapshotUpdate iter)) ∧
    (∀ snap pr, iget st iter = some snap →
      progressTracker getRealStatuses is_finished phaseCount
          (iset st iter (mergeEvent snap (fromCloudevent snap data))) = .ok pr →
      trackStep mkSnapshot fromCloudevent mergeEvent getRealStatuses
          is_finished phaseCount hasRunFailed st (.eeSnapshotUpdate iter data)
        = .ok (iset st iter (mergeEvent snap (fromCloudevent snap data)),
            .snapshotUpdateEvent pr iter (fromCloudevent snap data))) := by
  constructor
  · intro hnone
    simp only [trackStep, hnone]
  · intro snap pr hsome hpr
    simp only [trackStep, hsome, hpr]

theorem C4_track_out_of_order_witness :
    (iget ([((0:ℕ), ())]) 1 = none ∧
      trackStep (fun _ : Unit => ()) (fun _ _ => ()) (fun _ _ => ())
          (fun _ => [RealizationState.finished]) false 1 false
          [((0:ℕ), ())] (.eeSnapshotUpdate 1 ())
        = .error (.outOfOrderSnapshotUpdate 1)) ∧
    (iget ([((0:ℕ), ())]) 0 = some () ∧
      trackStep (fun _ : Unit => ()) (fun _ _ => ()) (fun _ _ => ())
          (fun _ => [RealizationState.finished]) false 1 false
          [((0:ℕ), ())] (.eeSnapshotUpdate 0 ())
        = .ok ([((0:ℕ), ())], .snapshotUpdateEvent 1 0 ())) :=
  ⟨⟨rfl,
    (C4_track_out_of_order (fun _ : Unit => ()) (fun _ _ => ()) (fun _ _ => ())
      (fun _ => [RealizationState.finished]) false 1 false
      [((0:ℕ), ())] 1 ()).1 rfl⟩,
   ⟨rfl,
    (C4_track_out_of_order (fun _ : Unit => ()) (fun _ _ => ()) (fun _ _ => ())
      (fun _ => [RealizationState.finished]) false 1 false
      [((0:ℕ), ())] 0 ()).2 () 1 rfl (by
        norm_num [progressTracker, maxKey, iget, iset, List.countP_cons])⟩⟩

/-! ### Claim C5 -/

/-- C5: at an iteration snapshot with zero realizations and the tracker not
finished, `_progress` hits Python's unguarded `float(done_reals) /
total_reals` and fails with a division by zero instead of returning `0.0`;
moreover, with snapshots stored for iterations 0 and 1 it reads iteration
`max(keys) = 1`, not a "current iteration" counter. -/
theorem C5_progress_unguarded :
    progressTracker (fun _ : Unit => ([] : List RealizationState)) false 1 [((0:ℕ), ())]
      = .error ProgressErr.zeroDivision ∧
    progressTracker
        (fun b : Bool => if b then [RealizationState.finished] else [RealizationState.running])
        false 2 [((0:ℕ), false), ((1:ℕ), true)]
      = .ok 1 := by
  constructor
  · rfl
  · norm_num [progressTracker, maxKey, iget, List.countP_cons]

/-! ## Snap: src/src/ert/ensemble_evaluator/snapshot.py

A `Snapshot` wraps a pyrsistent-frozen nested dict (`self._data`).
`_recursive_update(left, right, check_key)` walks the `right` mapping: a key
absent from `left` is an `Illegal field` (when `check_key`); a mapping value
recurses into `left[k]` unless that existing value is falsy, in which case the
subtree is frozen in wholesale; a non-mapping value overwrites.  Python
exceptions are modelled with `Except`: a raised error aborts the walk, and the
caller's `self._data = _recursive_update(...)` assignment never happens, so
the snapshot keeps its previous value. -/

/-- A frozen snapshot value: primitive leaves (strings, booleans,
ints/timestamps) and string-keyed mappings.  Mappings are association lists;
they come from Python dicts, whose keys are unique per level. -/
inductive Val where
  | vstr (s : String)
  | vbool (b : Bool)
  | vint (n : ℤ)
  | vmap (entries : List (String × Val))

/-- Python truthiness of a snapshot value (`if not d_val`): empty strings,
`False`, `0` and empty mappings are falsy. -/
def Val.falsy : Val → Bool
  | .vstr s => s = ""
  | .vbool b => !b
  | .vint n => n = 0
  | .vmap m => m.isEmpty

/-- `left.get(k)` on a frozen mapping. -/
def aget : List (String × Val) → String → Option Val
  | [], _ => none
  | (k, v) :: rest, key => if k = key then some v else aget rest key

/-- `left.set(k, v)` on a frozen mapping: replace the existing binding or
append a new one. -/
def aset : List (String × Val) → String → Val → List (String × Val)
  | [], key, v => [(key, v)]
  | (k, w) :: rest, key, v =>
    if k = key then (key, v) :: rest else (k, w) :: aset rest key v

/-- How `_recursive_update` can raise: `ValueError("Illegal field …")`, or a
`TypeError`/`AttributeError` from iterating or indexing a non-mapping. -/
inductive MergeErr where
  | illegalField (k : String)
  | typeError
deriving DecidableEq, Repr

mutual

/-- `_recursive_update(left, right, check_key)`: iterate `right.items()`
(a `TypeError` if `right` is no mapping) and fold each entry into `left`. -/
def recUpdate (check_key : Bool) (left right : Val) : Except MergeErr Val :=
  match right with
  | .vmap rs => goEntries check_key left rs
  | _ => .error MergeErr.typeError
termination_by sizeOf right

/-- The `for k, v in right.items()` loop of `_recursive_update`, with the
current `left` as accumulator.  Touching any entry requires `left` to be a
mapping (`k not in left` / `left.get` / `left.set` all raise otherwise). -/
def goEntries (check_key : Bool) (left : Val) : List (String × Val) → Except MergeErr Val
  | [] => .ok left
  | (k, v) :: rest =>
    match left with
    | .vmap lm =>
      match stepEntry check_key lm k v with
      | .error e => .error e
      | .ok lm' => goEntries check_key (.vmap lm') rest
    | _ => .error MergeErr.typeError
termination_by rs => sizeOf rs

/-- One loop body of `_recursive_update` on entry `(k, v)` against the
mapping `lm`: the `check_key` test, then either recursion into a truthy
existing mapping value, a wholesale `freeze` of `v` over a missing or falsy
value, or a plain overwrite for non-mapping `v`. -/
def stepEntry (check_key : Bool) (lm : List (String × Val)) (k : String) (v : Val) :
    Except MergeErr (List (String × Val)) :=
  if check_key && (aget lm k).isNone then .error (MergeErr.illegalField k)
  else
    match v with
    | .vmap vs =>
      match aget lm k with
      | none => .ok (aset lm k (.vmap vs))
      | some d_val =>
        if d_val.falsy then .ok (aset lm k (.vmap vs))
        else
          match recUpdate check_key d_val (.vmap vs) with
          | .error e => .error e
          | .ok m => .ok (aset lm k m)
    | _ => .ok (aset lm k v)
termination_by sizeOf v + 1

end

/-- `Snapshot.merge(update)`: `self._data = _recursive_update(self._data,
update)` with `check_key = True`; when the walk raises, the assignment never
happens and the snapshot is unchanged. -/
def Snapshot.merge (snapshot update : Val) : Except MergeErr Val :=
  recUpdate true snapshot update

mutual

/-- Well-formedness of a value that came out of Python dicts: keys are unique
at every mapping level (spec §3: "Keys are unique at each level"). -/
def wfVal : Val → Bool
  | .vstr _ => true
  | .vbool _ => true
  | .vint _ => true
  | .vmap m => decide ((m.map Prod.fst).Nodup) && wfEntries m
termination_by v => sizeOf v + 1

def wfEntries : List (String × Val) → Bool
  | [] => true
  | (_, v) :: rest => wfVal v && wfEntries rest
termination_by l => sizeOf l

end

/-! ### Mapping lemmas -/

theorem aget_aset_self (lm : List (String × Val)) (k : String) (v : Val) :
    aget (aset lm k v) k = some v := by
  induction lm with
  | nil => simp [aset, aget]
  | cons hd rest ih =>
    obtain ⟨k1, w⟩ := hd
    by_cases h : k1 = k
    · simp [aset, aget, h]
    · simp [aset, aget, h, ih]

theorem aget_aset_ne (lm : List (String × Val)) (k k0 : String) (v : Val)
    (h : k0 ≠ k) : aget (aset lm k v) k0 = aget lm k0 := by
  have hk : k ≠ k0 := Ne.symm h
  induction lm with
  | nil => simp [aset, aget, hk]
  | cons hd rest ih =>
    obtain ⟨k1, w⟩ := hd
    by_cases h1 : k1 = k
    · subst h1
      simp [aset, aget, hk]
    · simp [aset, aget, h1, ih]

theorem aset_eq_of_aget (lm : List (String × Val)) (k : String) (v : Val)
    (h : aget lm k = some v) : aset lm k v = lm := by
  induction lm with
  | nil => simp [aget] at h
  | cons hd rest ih =>
    obtain ⟨k1, w⟩ := hd
    by_cases h1 : k1 = k
    · subst h1
      simp [aget] at h
      simp [aset, h]
    · simp only [aget, if_neg h1] at h
      simp [aset, h1, ih h]

theorem aget_isSome_aset (lm : List (String × Val)) (k k0 : String) (v : Val)
    (h : (aget lm k0).isSome) : (aget (aset lm k v) k0).isSome := by
  by_cases hk : k0 = k
  · subst hk
    simp [aget_aset_self]
  · rwa [aget_aset_ne lm k k0 v hk]

theorem aget_of_mem_nodup (lm : List (String × Val)) (k : String) (v : Val)
    (hnd : (lm.map Prod.fst).Nodup) (hmem : (k, v) ∈ lm) : aget lm k = some v := by
  induction lm with
  | nil => simp at hmem
  | cons hd rest ih =>
    obtain ⟨k1, w⟩ := hd
    simp only [List.map_cons, List.nodup_cons] at hnd
    rcases List.mem_cons.mp hmem with heq | htail
    · rw [Prod.mk.injEq] at heq
      obtain ⟨hk, hv⟩ := heq
      subst hk
      subst hv
      simp [aget]
    · have hk1 : k1 ≠ k := by
        intro hcontra
        exact hnd.1 (hcontra ▸ (List.mem_map.mpr ⟨(k, v), htail, rfl⟩))
      simp only [aget, if_neg hk1]
      exact ih hnd.2 htail

/-! ### Update-walk lemmas -/

theorem goEntries_nil (ck : Bool) (left : Val) : goEntries ck left [] = .ok left := by
  simp [goEntries]

theorem goEntries_cons (ck : Bool) (lm : List (String × Val)) (k : String) (v : Val)
    (rest : List (String × Val)) :
    goEntries ck (.vmap lm) ((k, v) :: rest) =
      match stepEntry ck lm k v with
      | .error e => .error e
      | .ok lm' => goEntries ck (.vmap lm') rest := by
  simp [goEntries]

theorem goEntries_cons_nonmap (ck : Bool) (left : Val) (k : String) (v : Val)
    (rest : List (String × Val)) (h : ∀ m, left ≠ .vmap m) :
    goEntries ck left ((k, v) :: rest) = .error MergeErr.typeError := by
  cases left with
  | vmap m => exact absurd rfl (h m)
  | vstr s => simp [goEntries]
  | vbool b => simp [goEntries]
  | vint n => simp [goEntries]

theorem stepEntry_ok_aset (ck : Bool) (lm : List (String × Val)) (k : String)
    (v : Val) (lm' : List (String × Val)) (h : stepEntry ck lm k v = .ok lm') :
    ∃ w, lm' = aset lm k w := by
  unfold stepEntry at h
  split at h
  · simp at h
  · split at h
    · rename_i vs
      split at h
      · exact ⟨.vmap vs, by simpa using h.symm⟩
      · split at h
        · exact ⟨.vmap vs, by simpa using h.symm⟩
        · split at h
          · simp at h
          · rename_i m hm
            exact ⟨m, by simpa using h.symm⟩
    · exact ⟨v, by simpa using h.symm⟩

theorem goEntries_ok_vmap (ck : Bool) :
    ∀ (rs : List (String × Val)) (lm : List (String × Val)) (t : Val),
      goEntries ck (.vmap lm) rs = .ok t → ∃ tm, t = .vmap tm := by
  intro rs
  induction rs with
  | nil =>
    intro lm t h
    rw [goEntries_nil] at h
    exact ⟨lm, (Except.ok.injEq .. ▸ h).symm⟩
  | cons hd rest ih =>
    intro lm t h
    obtain ⟨k, v⟩ := hd
    rw [goEntries_cons] at h
    cases hstep : stepEntry ck lm k v with
    | error e => rw [hstep] at h; simp at h
    | ok lm' =>
      rw [hstep] at h
      exact ih lm' t h

theorem goEntries_isSome (ck : Bool) :
    ∀ (rs : List (String × Val)) (lm tm : List (String × Val)),
      goEntries ck (.vmap lm) rs = .ok (.vmap tm) →
      ∀ k0, (aget lm k0).isSome → (aget tm k0).isSome := by
  intro rs
  induction rs with
  | nil =>
    intro lm tm h k0 hk
    rw [goEntries_nil] at h
    simp only [Except.ok.injEq, Val.vmap.injEq] at h
    rwa [← h]
  | cons hd rest ih =>
    intro lm tm h k0 hk
    obtain ⟨k, v⟩ := hd
    rw [goEntries_cons] at h
    cases hstep : stepEntry ck lm k v with
    | error e => rw [hstep] at h; simp at h
    | ok lm' =>
      rw [hstep] at h
      obtain ⟨w, hw⟩ := stepEntry_ok_aset ck lm k v lm' hstep
      exact ih lm' tm h k0 (hw ▸ aget_isSome_aset lm k k0 w hk)

theorem goEntries_untouched (ck : Bool) :
    ∀ (rs : List (String × Val)) (lm tm : List (String × Val)),
      goEntries ck (.vmap lm) rs = .ok (.vmap tm) →
      ∀ k0, k0 ∉ rs.map Prod.fst → aget tm k0 = aget lm k0 := by
  intro rs
  induction rs with
  | nil =>
    intro lm tm h k0 _
    rw [goEntries_nil] at h
    simp only [Except.ok.injEq, Val.vmap.injEq] at h
    rw [← h]
  | cons hd rest ih =>
    intro lm tm h k0 hk0
    obtain ⟨k, v⟩ := hd
    simp only [List.map_cons, List.mem_cons, not_or] at hk0
    rw [goEntries_cons] at h
    cases hstep : stepEntry ck lm k v with
    | error e => rw [hstep] at h; simp at h
    | ok lm' =>
      rw [hstep] at h
      obtain ⟨w, hw⟩ := stepEntry_ok_aset ck lm k v lm' hstep
      rw [ih lm' tm h k0 hk0.2, hw, aget_aset_ne lm k k0 w hk0.1]

theorem recUpdate_ok_not_falsy (ck : Bool) (l r m : Val)
    (hl : l.falsy = false) (h : recUpdate ck l r = .ok m) : m.falsy = false := by
  cases r with
  | vstr s => simp [recUpdate] at h
  | vbool b => simp [recUpdate] at h
  | vint n => simp [recUpdate] at h
  | vmap rs =>
    simp only [recUpdate] at h
    cases l with
    | vmap lm =>
      obtain ⟨tm, htm⟩ := goEntries_ok_vmap ck rs lm m h
      subst htm
      cases lm with
      | nil => simp [Val.falsy] at hl
      | cons hd rest =>
        obtain ⟨k0, v0⟩ := hd
        have hsome : (aget ((k0, v0) :: rest) k0).isSome := by simp [aget]
        have := goEntries_isSome ck rs _ tm h k0 hsome
        cases tm with
        | nil => simp [aget] at this
        | cons hd2 rest2 => simp [Val.falsy]
    | vstr s =>
      cases rs with
      | nil => rw [goEntries_nil] at h; simp at h; rwa [← h]
      | cons hd rest =>
        obtain ⟨k, v⟩ := hd
        rw [goEntries_cons_nonmap ck _ k v rest (by intro m hm; cases hm)] at h
        simp at h
    | vbool b =>
      cases rs with
      | nil => rw [goEntries_nil] at h; simp at h; rwa [← h]
      | cons hd rest =>
        obtain ⟨k, v⟩ := hd
        rw [goEntries_cons_nonmap ck _ k v rest (by intro m hm; cases hm)] at h
        simp at h
    | vint n =>
      cases rs with
      | nil => rw [goEntries_nil] at h; simp at h; rwa [← h]
      | cons hd rest =>
        obtain ⟨k, v⟩ := hd
        rw [goEntries_cons_nonmap ck _ k v rest (by intro m hm; cases hm)] at h
        simp at h

theorem stepEntry_eval_nonmap (ck : Bool) (tm : List (String × Val)) (k : String)
    (v : Val) (hget : (aget tm k).isSome) (hv : ∀ m, v ≠ .vmap m) :
    stepEntry ck tm k v = .ok (aset tm k v) := by
  obtain ⟨w, hw⟩ := Option.isSome_iff_exists.mp hget
  unfold stepEntry
  rw [hw]
  cases v with
  | vmap m => exact absurd rfl (hv m)
  | vstr s => simp
  | vbool b => simp
  | vint n => simp

theorem stepEntry_eval_some_falsy (ck : Bool) (tm : List (String × Val)) (k : String)
    (vs : List (String × Val)) (m : Val) (hget : aget tm k = some m)
    (hfalsy : m.falsy = true) :
    stepEntry ck tm k (.vmap vs) = .ok (aset tm k (.vmap vs)) := by
  unfold stepEntry
  rw [hget]
  simp [hfalsy]

theorem stepEntry_eval_some_truthy (ck : Bool) (tm : List (String × Val)) (k : String)
    (vs : List (String × Val)) (m : Val) (hget : aget tm k = some m)
    (hfalsy : m.falsy = false) :
    stepEntry ck tm k (.vmap vs) =
      match recUpdate ck m (.vmap vs) with
      | .error e => .error e
      | .ok m' => .ok (aset tm k m') := by
  unfold stepEntry
  rw [hget]
  simp [hfalsy]

theorem stepEntry_ok_cases (ck : Bool) (lm : List (String × Val)) (k : String)
    (v : Val) (lm' : List (String × Val)) (h : stepEntry ck lm k v = .ok lm') :
    (∃ vs, v = .vmap vs ∧ lm' = aset lm k (.vmap vs) ∧
      (aget lm k = none ∨ ∃ d, aget lm k = some d ∧ d.falsy = true)) ∨
    (∃ vs d m, v = .vmap vs ∧ aget lm k = some d ∧ d.falsy = false ∧
      recUpdate ck d (.vmap vs) = .ok m ∧ lm' = aset lm k m) ∨
    ((∀ vs, v ≠ .vmap vs) ∧ lm' = aset lm k v) := by
  unfold stepEntry at h
  split at h
  · simp at h
  · split at h
    · rename_i vs
      split at h
      · rename_i hnone
        exact Or.inl ⟨vs, rfl, by simpa using h.symm, Or.inl hnone⟩
      · rename_i d hd
        split at h
        · rename_i hfalsy
          exact Or.inl ⟨vs, rfl, by simpa using h.symm, Or.inr ⟨d, hd, hfalsy⟩⟩
        · rename_i hfalsy
          split at h
          · simp at h
          · rename_i m hm
            refine Or.inr (Or.inl ⟨vs, d, m, rfl, hd, ?_, hm, by simpa using h.symm⟩)
            revert hfalsy
            cases d.falsy <;> simp
    · rename_i hnm
      refine Or.inr (Or.inr ⟨?_, by simpa using h.symm⟩)
      intro vs hvs
      exact hnm vs hvs

/-- A well-formed mapping merged into a copy of itself is a no-op; stated as
the two mutually-supporting facts of the walk (one loop body over an entry
already present with its own value, and a full walk over a mapping whose
entries are all present). -/
theorem selfRun (ck : Bool) :
    ∀ n : ℕ,
      (∀ v : Val, sizeOf v ≤ n → wfVal v = true →
        ∀ lm k, aget lm k = some v → stepEntry ck lm k v = .ok lm) ∧
      (∀ rs : List (String × Val), sizeOf rs ≤ n → wfEntries rs = true →
        (rs.map Prod.fst).Nodup →
        ∀ lm, (∀ k v, (k, v) ∈ rs → aget lm k = some v) →
        goEntries ck (.vmap lm) rs = .ok (.vmap lm)) := by
  intro n
  induction n with
  | zero =>
    constructor
    · intro v hsz
      exfalso
      cases v <;> simp at hsz
    · intro rs hsz
      exfalso
      cases rs <;> simp at hsz
  | succ n ih =>
    obtain ⟨ihStep, ihGo⟩ := ih
    constructor
    · intro v hsz hwf lm k hget
      cases v with
      | vstr s =>
        rw [stepEntry_eval_nonmap ck lm k _ (by simp [hget]) (by intro m hm; cases hm)]
        rw [aset_eq_of_aget lm k _ hget]
      | vbool b =>
        rw [stepEntry_eval_nonmap ck lm k _ (by simp [hget]) (by intro m hm; cases hm)]
        rw [aset_eq_of_aget lm k _ hget]
      | vint z =>
        rw [stepEntry_eval_nonmap ck lm k _ (by simp [hget]) (by intro m hm; cases hm)]
        rw [aset_eq_of_aget lm k _ hget]
      | vmap vs =>
        by_cases hemp : (Val.vmap vs).falsy = true
        · rw [stepEntry_eval_some_falsy ck lm k vs _ hget hemp]
          rw [aset_eq_of_aget lm k _ hget]
        · have hfalsy : (Val.vmap vs).falsy = false := by
            revert hemp; cases (Val.vmap vs).falsy <;> simp
          have hsz' : sizeOf vs ≤ n := by
            simp only [Val.vmap.sizeOf_spec] at hsz
            omega
          have hwf' : (vs.map Prod.fst).Nodup ∧ wfEntries vs = true := by
            simp only [wfVal, Bool.and_eq_true, decide_eq_true_eq] at hwf
            exact hwf
          have hrec : recUpdate ck (.vmap vs) (.vmap vs) = .ok (.vmap vs) := by
            simp only [recUpdate]
            exact ihGo vs hsz' hwf'.2 hwf'.1 vs
              (fun k' v' hm => aget_of_mem_nodup vs k' v' hwf'.1 hm)
          rw [stepEntry_eval_some_truthy ck lm k vs _ hget hfalsy, hrec]
          show Except.ok (aset lm k (.vmap vs)) = Except.ok lm
          rw [aset_eq_of_aget lm k _ hget]
    · intro rs hsz hwf hnd lm hmem
      cases rs with
      | nil => exact goEntries_nil ck _
      | cons hd rest =>
        obtain ⟨k, v⟩ := hd
        simp only [wfEntries, Bool.and_eq_true] at hwf
        simp only [List.map_cons, List.nodup_cons] at hnd
        have hget : aget lm k = some v := hmem k v (List.mem_cons_self _ _)
        have hszv : sizeOf v ≤ n := by
          simp only [List.cons.sizeOf_spec, Prod.mk.sizeOf_spec] at hsz
          omega
        have hszrest : sizeOf rest ≤ n := by
          simp only [List.cons.sizeOf_spec, Prod.mk.sizeOf_spec] at hsz
          omega
        rw [goEntries_cons, ihStep v hszv hwf.1 lm k hget]
        exact ihGo rest hszrest hwf.2 hnd.2 lm
          (fun k' v' hm => hmem k' v' (List.mem_cons_of_mem _ hm))

/-- Idempotence of the entry walk: re-running a well-formed update over its
own merged result changes nothing. -/
theorem goIdem (ck : Bool) :
    ∀ n : ℕ, ∀ rs : List (String × Val), sizeOf rs ≤ n → wfEntries rs = true →
      (rs.map Prod.fst).Nodup →
      ∀ lm tm, goEntries ck (.vmap lm) rs = .ok (.vmap tm) →
      goEntries ck (.vmap tm) rs = .ok (.vmap tm) := by
  intro n
  induction n with
  | zero =>
    intro rs hsz
    exfalso
    cases rs <;> simp at hsz
  | succ n ih =>
    intro rs hsz hwf hnd lm tm h
    cases rs with
    | nil =>
      rw [goEntries_nil] at h
      simp only [Except.ok.injEq, Val.vmap.injEq] at h
      rw [goEntries_nil]
    | cons hd rest =>
      obtain ⟨k, v⟩ := hd
      simp only [wfEntries, Bool.and_eq_true] at hwf
      simp only [List.map_cons, List.nodup_cons] at hnd
      have hszv : sizeOf v ≤ n := by
        simp only [List.cons.sizeOf_spec, Prod.mk.sizeOf_spec] at hsz
        omega
      have hszrest : sizeOf rest ≤ n := by
        simp only [List.cons.sizeOf_spec, Prod.mk.sizeOf_spec] at hsz
        omega
      rw [goEntries_cons] at h
      cases hstep : stepEntry ck lm k v with
      | error e => rw [hstep] at h; simp at h
      | ok lm' =>
        rw [hstep] at h
        have hrest := ih rest hszrest hwf.2 hnd.2 lm' tm h
        have huntouched : aget tm k = aget lm' k :=
          goEntries_untouched ck rest lm' tm h k hnd.1
        have hstep2 : stepEntry ck tm k v = .ok tm := by
          rcases stepEntry_ok_cases ck lm k v lm' hstep with
            ⟨vs, hv, hlm', -⟩ | ⟨vs, d, m, hv, hd, hdf, hm, hlm'⟩ | ⟨hnm, hlm'⟩
          · subst hv
            have hagettm : aget tm k = some (.vmap vs) := by
              rw [huntouched, hlm', aget_aset_self]
            exact (selfRun ck (sizeOf (Val.vmap vs))).1 (.vmap vs) le_rfl hwf.1 tm k hagettm
          · subst hv
            have hagettm : aget tm k = some m := by
              rw [huntouched, hlm', aget_aset_self]
            have hmf : m.falsy = false := recUpdate_ok_not_falsy ck d _ m hdf hm
            have hrec2 : recUpdate ck m (.vmap vs) = .ok m := by
              cases vs with
              | nil =>
                simp only [recUpdate] at hm ⊢
                rw [goEntries_nil] at hm
                simp only [Except.ok.injEq] at hm
                subst hm
                exact goEntries_nil ck d
              | cons v0 vrest =>
                obtain ⟨v0k, v0v⟩ := v0
                simp only [recUpdate] at hm ⊢
                cases d with
                | vmap dm =>
                  obtain ⟨mm, hmm⟩ := goEntries_ok_vmap ck _ dm m hm
                  subst hmm
                  have hwfvs := hwf.1
                  simp only [wfVal, Bool.and_eq_true, decide_eq_true_eq] at hwfvs
                  have hszvs : sizeOf ((v0k, v0v) :: vrest) ≤ n := by
                    simp only [Val.vmap.sizeOf_spec] at hszv
                    omega
                  exact ih ((v0k, v0v) :: vrest) hszvs hwfvs.2 hwfvs.1 dm mm hm
                | vstr s =>
                  rw [goEntries_cons_nonmap ck _ v0k v0v vrest
                    (fun mm hmm => Val.noConfusion hmm)] at hm
                  simp at hm
                | vbool b =>
                  rw [goEntries_cons_nonmap ck _ v0k v0v vrest
                    (fun mm hmm => Val.noConfusion hmm)] at hm
                  simp at hm
                | vint z =>
                  rw [goEntries_cons_nonmap ck _ v0k v0v vrest
                    (fun mm hmm => Val.noConfusion hmm)] at hm
                  simp at hm
            rw [stepEntry_eval_some_truthy ck tm k vs m hagettm hmf, hrec2]
            show Except.ok (aset tm k m) = Except.ok tm
            rw [aset_eq_of_aget tm k m hagettm]
          · have hagettm : aget tm k = some v := by
              rw [huntouched, hlm', aget_aset_self]
            rw [stepEntry_eval_nonmap ck tm k v (by simp [hagettm]) hnm]
            rw [aset_eq_of_aget tm k v hagettm]
        rw [goEntries_cons, hstep2]
        exact hrest

/-- Idempotence of `_recursive_update` over a well-formed update value. -/
theorem recUpdate_idem (ck : Bool) (r l t : Val) (hwf : wfVal r = true)
    (h : recUpdate ck l r = .ok t) : recUpdate ck t r = .ok t := by
  cases r with
  | vstr s => simp [recUpdate] at h
  | vbool b => simp [recUpdate] at h
  | vint z => simp [recUpdate] at h
  | vmap rs =>
    simp only [recUpdate] at h ⊢
    cases rs with
    | nil =>
      rw [goEntries_nil] at h
      simp only [Except.ok.injEq] at h
      subst h
      exact goEntries_nil ck l
    | cons r0 rrest =>
      obtain ⟨r0k, r0v⟩ := r0
      cases l with
      | vmap lm =>
        obtain ⟨tm, htm⟩ := goEntries_ok_vmap ck _ lm t h
        subst htm
        have hwf' := hwf
        simp only [wfVal, Bool.and_eq_true, decide_eq_true_eq] at hwf'
        exact goIdem ck (sizeOf ((r0k, r0v) :: rrest)) ((r0k, r0v) :: rrest)
          le_rfl hwf'.2 hwf'.1 lm tm h
      | vstr s =>
        rw [goEntries_cons_nonmap ck _ r0k r0v rrest (fun mm hmm => Val.noConfusion hmm)] at h
        simp at h
      | vbool b =>
        rw [goEntries_cons_nonmap ck _ r0k r0v rrest (fun mm hmm => Val.noConfusion hmm)] at h
        simp at h
      | vint z =>
        rw [goEntries_cons_nonmap ck _ r0k r0v rrest (fun mm hmm => Val.noConfusion hmm)] at h
        simp at h

/-- The walk processes an appended update sequentially: the second part runs
on the first part's result, and a failure in the first part is final. -/
theorem goEntries_append (ck : Bool) :
    ∀ (xs ys : List (String × Val)) (l : Val),
      goEntries ck l (xs ++ ys) =
        match goEntries ck l xs with
        | .error e => .error e
        | .ok l' => goEntries ck l' ys := by
  intro xs
  induction xs with
  | nil =>
    intro ys l
    rw [List.nil_append, goEntries_nil]
  | cons hd rest ih =>
    intro ys l
    obtain ⟨k, v⟩ := hd
    cases l with
    | vmap lm =>
      rw [List.cons_append, goEntries_cons, goEntries_cons]
      cases hstep : stepEntry ck lm k v with
      | error e => rfl
      | ok lm' => exact ih ys (.vmap lm')
    | vstr s =>
      rw [List.cons_append,
        goEntries_cons_nonmap ck _ k v (rest ++ ys) (fun m hm => Val.noConfusion hm),
        goEntries_cons_nonmap ck _ k v rest (fun m hm => Val.noConfusion hm)]
    | vbool b =>
      rw [List.cons_append,
        goEntries_cons_nonmap ck _ k v (rest ++ ys) (fun m hm => Val.noConfusion hm),
        goEntries_cons_nonmap ck _ k v rest (fun m hm => Val.noConfusion hm)]
    | vint n =>
      rw [List.cons_append,
        goEntries_cons_nonmap ck _ k v (rest ++ ys) (fun m hm => Val.noConfusion hm),
        goEntries_cons_nonmap ck _ k v rest (fun m hm => Val.noConfusion hm)]

/-- "The first failure of the checked walk is a missing key": processing the
update `rs` against the snapshot mapping `lm` with `check_key = True`, all
entries before some entry succeed, and that entry's key is missing from the
current mapping — either directly (`here`) or inside the recursive update of
a truthy existing mapping value (`deep`). -/
inductive FirstMiss : List (String × Val) → List (String × Val) → String → Prop where
  | here (lm pre post lm₁ : List (String × Val)) (k : String) (v : Val)
      (hpre : goEntries true (.vmap lm) pre = .ok (.vmap lm₁))
      (hmiss : aget lm₁ k = none) :
      FirstMiss lm (pre ++ (k, v) :: post) k
  | deep (lm pre post lm₁ dm vs : List (String × Val)) (k₀ k : String)
      (hpre : goEntries true (.vmap lm) pre = .ok (.vmap lm₁))
      (hget : aget lm₁ k₀ = some (.vmap dm))
      (hne : dm ≠ [])
      (hdeep : FirstMiss dm vs k) :
      FirstMiss lm (pre ++ (k₀, .vmap vs) :: post) k

/-- A checked-level miss, at any depth, makes the walk raise exactly the
`Illegal field` error for the missing key. -/
theorem firstMiss_illegal :
    ∀ (lm rs : List (String × Val)) (k : String), FirstMiss lm rs k →
      goEntries true (.vmap lm) rs = .error (MergeErr.illegalField k) := by
  intro lm rs k h
  induction h with
  | here lm pre post lm₁ k v hpre hmiss =>
    rw [goEntries_append, hpre]
    show goEntries true (.vmap lm₁) ((k, v) :: post) = _
    rw [goEntries_cons]
    have hstep : stepEntry true lm₁ k v = .error (MergeErr.illegalField k) := by
      unfold stepEntry
      rw [hmiss]
      simp
    rw [hstep]
  | deep lm pre post lm₁ dm vs k₀ k hpre hget hne hdeep ih =>
    rw [goEntries_append, hpre]
    show goEntries true (.vmap lm₁) ((k₀, .vmap vs) :: post) = _
    rw [goEntries_cons]
    have hfalsy : (Val.vmap dm).falsy = false := by
      cases dm with
      | nil => exact absurd rfl hne
      | cons a l => rfl
    have hstep : stepEntry true lm₁ k₀ (.vmap vs) = .error (MergeErr.illegalField k) := by
      rw [stepEntry_eval_some_truthy true lm₁ k₀ vs (.vmap dm) hget hfalsy]
      simp only [recUpdate]
      rw [ih]
    rw [hstep]

/-- Per-key characterization of a successful checked walk over an update with
unique keys: an entry with a mapping value over a truthy existing value ends
up stored as the recursive update of the two; every other entry (non-mapping
value, or a missing or falsy existing value) ends up stored exactly as
given. -/
theorem goEntries_ok_char (ck : Bool) :
    ∀ (rs lm tm : List (String × Val)),
      (rs.map Prod.fst).Nodup →
      goEntries ck (.vmap lm) rs = .ok (.vmap tm) →
      ∀ k v, (k, v) ∈ rs →
        (∀ vs d, v = .vmap vs → aget lm k = some d → d.falsy = false →
          ∃ m, recUpdate ck d v = .ok m ∧ aget tm k = some m) ∧
        (((∀ vs, v ≠ .vmap vs) ∨ aget lm k = none ∨
            (∃ d, aget lm k = some d ∧ d.falsy = true)) →
          aget tm k = some v) := by
  intro rs
  induction rs with
  | nil =>
    intro lm tm _ _ k v hmem
    simp at hmem
  | cons hd rest ih =>
    intro lm tm hnd h k v hmem
    obtain ⟨k₀, v₀⟩ := hd
    simp only [List.map_cons, List.nodup_cons] at hnd
    rw [goEntries_cons] at h
    cases hstep : stepEntry ck lm k₀ v₀ with
    | error e => rw [hstep] at h; simp at h
    | ok lm' =>
      rw [hstep] at h
      rcases List.mem_cons.mp hmem with heq | htail
      · rw [Prod.mk.injEq] at heq
        obtain ⟨hk, hv⟩ := heq
        subst hk
        subst hv
        have huntouched : aget tm k = aget lm' k :=
          goEntries_untouched ck rest lm' tm h k hnd.1
        rcases stepEntry_ok_cases ck lm k v lm' hstep with
          ⟨vs, hveq, hlm', hor⟩ | ⟨vs, d₀, m, hveq, hd₀, hdf₀, hm, hlm'⟩ | ⟨hnm, hlm'⟩
        · subst hveq
          have htmk : aget tm k = some (.vmap vs) := by
            rw [huntouched, hlm', aget_aset_self]
          constructor
          · intro vs' d _ hd hdf
            rcases hor with hnone | ⟨d₁, hd₁, hdf₁⟩
            · rw [hd] at hnone
              exact Option.noConfusion hnone
            · rw [hd] at hd₁
              injection hd₁ with hdd
              rw [← hdd] at hdf₁
              exact absurd (hdf.symm.trans hdf₁) (by decide)
          · intro _
            exact htmk
        · subst hveq
          have htmk : aget tm k = some m := by
            rw [huntouched, hlm', aget_aset_self]
          constructor
          · intro vs' d _ hd hdf
            rw [hd] at hd₀
            injection hd₀ with hdd
            subst hdd
            exact ⟨m, hm, htmk⟩
          · intro hcase
            rcases hcase with hnm | hnone | ⟨d₁, hd₁, hdf₁⟩
            · exact absurd rfl (hnm vs)
            · rw [hd₀] at hnone
              exact Option.noConfusion hnone
            · rw [hd₀] at hd₁
              injection hd₁ with hdd
              rw [← hdd] at hdf₁
              exact absurd (hdf₀.symm.trans hdf₁) (by decide)
        · have htmk : aget tm k = some v := by
            rw [huntouched, hlm', aget_aset_self]
          constructor
          · intro vs d hveq _ _
            exact absurd hveq (hnm vs)
          · intro _
            exact htmk
      · have hkne : k ≠ k₀ := by
          intro hcontra
          exact hnd.1 (hcontra ▸ List.mem_map.mpr ⟨(k, v), htail, rfl⟩)
        obtain ⟨w, hw⟩ := stepEntry_ok_aset ck lm k₀ v₀ lm' hstep
        have hagets : aget lm' k = aget lm k := by
          rw [hw, aget_aset_ne lm k₀ k w hkne]
        have hchar := ih lm' tm hnd.2 h k v htail
        constructor
        · intro vs d hveq hd hdf
          exact hchar.1 vs d hveq (by rw [hagets]; exact hd) hdf
        · intro hcase
          apply hchar.2
          rcases hcase with hnm | hnone | ⟨d₁, hd₁, hdf₁⟩
          · exact Or.inl hnm
          · exact Or.inr (Or.inl (by rw [hagets]; exact hnone))
          · exact Or.inr (Or.inr ⟨d₁, by rw [hagets]; exact hd₁, hdf₁⟩)

/-- A missing top-level key anywhere in a unique-keyed update makes the
checked walk fail (with whatever failure comes first). -/
theorem mergeTopMiss :
    ∀ (lm rs : List (String × Val)) (k : String) (v : Val),
      (rs.map Prod.fst).Nodup → (k, v) ∈ rs → aget lm k = none →
      ∀ t, goEntries true (.vmap lm) rs ≠ .ok t := by
  intro lm rs
  induction rs generalizing lm with
  | nil =>
    intro k v _ hmem
    simp at hmem
  | cons hd rest ih =>
    intro k v hnd hmem hnone t h
    obtain ⟨k1, v1⟩ := hd
    rw [goEntries_cons] at h
    rcases List.mem_cons.mp hmem with heq | htail
    · rw [Prod.mk.injEq] at heq
      obtain ⟨hk, -⟩ := heq
      subst hk
      have hstep : stepEntry true lm k v1 = .error (MergeErr.illegalField k) := by
        unfold stepEntry
        rw [hnone]
        simp
      rw [hstep] at h
      simp at h
    · cases hstep : stepEntry true lm k1 v1 with
      | error e => rw [hstep] at h; simp at h
      | ok lm' =>
        rw [hstep] at h
        obtain ⟨w, hw⟩ := stepEntry_ok_aset true lm k1 v1 lm' hstep
        have hk1 : k ≠ k1 := by
          simp only [List.map_cons, List.nodup_cons] at hnd
          intro hcontra
          exact hnd.1 (hcontra ▸ List.mem_map.mpr ⟨(k, v), htail, rfl⟩)
        have hnone' : aget lm' k = none := by
          rw [hw, aget_aset_ne lm k1 k w hk1, hnone]
        have hndrest : (rest.map Prod.fst).Nodup := by
          simp only [List.map_cons, List.nodup_cons] at hnd
          exact hnd.2
        exact ih lm' k v hndrest htail hnone' t h

/-! ### Claim C3 -/

/-- C3 counterexample: the update references key `"b"`, which exists nowhere
in the snapshot, yet `Snapshot.merge` succeeds — because the snapshot's value
under `"a"` is an *empty* mapping, `_recursive_update` grafts the update's
subtree in without checking its keys (`if not d_val`).  The claim that a
missing key at any level always fails is therefore false. -/
theorem C3_counterexample :
    Snapshot.merge (.vmap [("a", .vmap [])]) (.vmap [("a", .vmap [("b", .vstr "x")])])
      = .ok (.vmap [("a", .vmap [("b", .vstr "x")])]) := by
  simp [Snapshot.merge, recUpdate, goEntries, stepEntry, aget, aset, Val.falsy]

/-- C3 (amended): `Snapshot.merge` fails — leaving the snapshot unchanged,
since the `_data` assignment never runs — whenever the update references a
top-level key missing from the snapshot (for updates with unique keys); and
whenever the walk's first failure is a key missing at a checked level, at any
depth reached through truthy mapping values, the error is exactly the
invalid-field (`Illegal field`) error naming that key.  However, when the
snapshot's existing value at a key is empty or otherwise falsy, the update's
subtree under that key is grafted in whole with no checking of its keys.
When merge succeeds, the delta has been applied deep and field-wise: keys
absent from the update keep their snapshot values, an entry whose value is a
non-mapping — or whose existing target is missing or falsy — is stored
exactly as given, and an entry with a mapping value over a truthy existing
value is stored as the recursive update of the two. -/
theorem C3_merge_field_check :
    (∀ (lm rs : List (String × Val)) (k : String),
      FirstMiss lm rs k →
      Snapshot.merge (.vmap lm) (.vmap rs) = .error (MergeErr.illegalField k)) ∧
    (∀ (lm rs : List (String × Val)) (k : String) (v : Val),
      (rs.map Prod.fst).Nodup → (k, v) ∈ rs → aget lm k = none →
      ∀ t, Snapshot.merge (.vmap lm) (.vmap rs) ≠ .ok t) ∧
    (∀ (lm lm₁ pre post vs : List (String × Val)) (k : String) (d : Val),
      goEntries true (.vmap lm) pre = .ok (.vmap lm₁) →
      aget lm₁ k = some d → d.falsy = true →
      Snapshot.merge (.vmap lm) (.vmap (pre ++ (k, .vmap vs) :: post))
        = goEntries true (.vmap (aset lm₁ k (.vmap vs))) post) ∧
    (∀ (rs lm tm : List (String × Val)),
      (rs.map Prod.fst).Nodup →
      Snapshot.merge (.vmap lm) (.vmap rs) = .ok (.vmap tm) →
      (∀ k, k ∉ rs.map Prod.fst → aget tm k = aget lm k) ∧
      (∀ k v, (k, v) ∈ rs →
        (∀ vs d, v = .vmap vs → aget lm k = some d → d.falsy = false →
          ∃ m, recUpdate true d v = .ok m ∧ aget tm k = some m) ∧
        (((∀ vs, v ≠ .vmap vs) ∨ aget lm k = none ∨
            (∃ d, aget lm k = some d ∧ d.falsy = true)) →
          aget tm k = some v))) := by
  refine ⟨?_, ?_, ?_, ?_⟩
  · intro lm rs k h
    simp only [Snapshot.merge, recUpdate]
    exact firstMiss_illegal lm rs k h
  · intro lm rs k v hnd hmem hnone t
    simp only [Snapshot.merge, recUpdate]
    exact mergeTopMiss lm rs k v hnd hmem hnone t
  · intro lm lm₁ pre post vs k d hpre hget hfalsy
    simp only [Snapshot.merge, recUpdate]
    rw [goEntries_append, hpre]
    show goEntries true (.vmap lm₁) ((k, .vmap vs) :: post) = _
    rw [goEntries_cons, stepEntry_eval_some_falsy true lm₁ k vs d hget hfalsy]
  · intro rs lm tm hnd h
    simp only [Snapshot.merge, recUpdate] at h
    exact ⟨goEntries_untouched true rs lm tm h, goEntries_ok_char true rs lm tm hnd h⟩

theorem C3_merge_field_check_witness :
    Snapshot.merge (.vmap [("a", Val.vmap [("x", Val.vint 0)])])
        (.vmap [("a", Val.vmap [("b", Val.vint 1)])])
      = .error (MergeErr.illegalField "b") ∧
    (Snapshot.merge (.vmap []) (.vmap [("a", Val.vstr "1")]) ≠ .ok (.vmap [])) ∧
    Snapshot.merge (.vmap [("a", Val.vmap [])]) (.vmap [("a", Val.vmap [("b", Val.vint 1)])])
      = goEntries true (.vmap (aset [("a", Val.vmap [])] "a" (.vmap [("b", Val.vint 1)]))) [] ∧
    aget [("a", Val.vint 2)] "a" = some (Val.vint 2) :=
  ⟨C3_merge_field_check.1 [("a", Val.vmap [("x", Val.vint 0)])]
      [("a", Val.vmap [("b", Val.vint 1)])] "b"
      (FirstMiss.deep [("a", Val.vmap [("x", Val.vint 0)])] [] []
        [("a", Val.vmap [("x", Val.vint 0)])] [("x", Val.vint 0)] [("b", Val.vint 1)]
        "a" "b"
        (goEntries_nil true (.vmap [("a", Val.vmap [("x", Val.vint 0)])]))
        (by simp [aget])
        (by simp)
        (FirstMiss.here [("x", Val.vint 0)] [] [] [("x", Val.vint 0)] "b" (Val.vint 1)
          (goEntries_nil true (.vmap [("x", Val.vint 0)]))
          (by simp [aget]))),
   C3_merge_field_check.2.1 [] [("a", Val.vstr "1")] "a" (Val.vstr "1")
      (by simp) (by simp) (by simp [aget]) (.vmap []),
   C3_merge_field_check.2.2.1 [("a", Val.vmap [])] [("a", Val.vmap [])] [] []
      [("b", Val.vint 1)] "a" (Val.vmap [])
      (goEntries_nil true (.vmap [("a", Val.vmap [])]))
      (by simp [aget]) (by simp [Val.falsy]),
   ((C3_merge_field_check.2.2.2 [("a", Val.vint 2)] [("a", Val.vint 1)] [("a", Val.vint 2)]
      (by simp)
      (by simp [Snapshot.merge, recUpdate, goEntries, stepEntry, aget, aset, Val.falsy])).2
      "a" (Val.vint 2) (by simp)).2
      (Or.inl (fun vs h => Val.noConfusion h))⟩

/-! ### Claim C8 -/

/-- C8: merging is idempotent for well-formed updates (unique keys per level,
as Python dicts guarantee) — if `merge s p` succeeds with result `t`, merging
`p` again into `t` succeeds and returns `t` — and merging the empty update is
the identity. -/
theorem C8_merge_idempotent :
    (∀ s p t : Val, wfVal p = true →
      Snapshot.merge s p = .ok t → Snapshot.merge t p = .ok t) ∧
    (∀ s : Val, Snapshot.merge s (.vmap []) = .ok s) := by
  constructor
  · intro s p t hwf h
    exact recUpdate_idem true p s t hwf h
  · intro s
    simp only [Snapshot.merge, recUpdate]
    exact goEntries_nil true s

theorem C8_merge_idempotent_witness :
    wfVal (Val.vmap [("a", Val.vstr "2"), ("b", Val.vmap [("c", Val.vint 3)])]) = true ∧
    Snapshot.merge (Val.vmap [("a", Val.vstr "1"), ("b", Val.vmap [("c", Val.vint 2)])])
        (Val.vmap [("a", Val.vstr "2"), ("b", Val.vmap [("c", Val.vint 3)])])
      = .ok (Val.vmap [("a", Val.vstr "2"), ("b", Val.vmap [("c", Val.vint 3)])]) ∧
    Snapshot.merge (Val.vmap [("a", Val.vstr "2"), ("b", Val.vmap [("c", Val.vint 3)])])
        (Val.vmap [("a", Val.vstr "2"), ("b", Val.vmap [("c", Val.vint 3)])])
      = .ok (Val.vmap [("a", Val.vstr "2"), ("b", Val.vmap [("c", Val.vint 3)])]) := by
  have h1 : wfVal (Val.vmap [("a", Val.vstr "2"), ("b", Val.vmap [("c", Val.vint 3)])]) = true := by
    simp [wfVal, wfEntries]
  have h2 : Snapshot.merge (Val.vmap [("a", Val.vstr "1"), ("b", Val.vmap [("c", Val.vint 2)])])
      (Val.vmap [("a", Val.vstr "2"), ("b", Val.vmap [("c", Val.vint 3)])])
      = .ok (Val.vmap [("a", Val.vstr "2"), ("b", Val.vmap [("c", Val.vint 3)])]) := by
    simp [Snapshot.merge, recUpdate, goEntries, stepEntry, aget, aset, Val.falsy]
  exact ⟨h1, h2, C8_merge_idempotent.1 _ _ _ h1 h2⟩

/-! ### The tabular `PartialSnapshot` of snapshot.py (claim C6)

`PartialSnapshot` in this source keeps pandas tables instead of the nested
dict.  Its `from_cloudevent` begins with `if self._snapshot is None: raise
UnsupportedOperationException(...)` — but `__init__` never creates the
`_snapshot` attribute (nor `_data`), so the very first statement of every
call fails at the attribute read.  `update_step` is stubbed: it prints
`ignoring step=...` and returns `self` without writing anything. -/

/-- The event-type vocabulary (`identifiers.py` is not under `src/`; the
constructors follow the `EVTYPE_*` names it exports, spec §6). -/
inductive EvType where
  | fmStepWaiting
  | fmStepPending
  | fmStepRunning
  | fmStepFailure
  | fmStepSuccess
  | fmStepUnknown
  | fmStepTimeout
  | fmJobStart
  | fmJobRunning
  | fmJobSuccess
  | fmJobFailure
  | ensembleStarted
  | ensembleStopped
  | ensembleCancelled
  | ensembleFailed
  | eeSnapshot
  | eeSnapshotUpdate
  | eeTerminated
deriving DecidableEq, Repr

def EVGROUP_FM_STEP : List EvType :=
  [.fmStepWaiting, .fmStepPending, .fmStepRunning, .fmStepFailure,
   .fmStepSuccess, .fmStepUnknown, .fmStepTimeout]

def EVGROUP_FM_JOB : List EvType :=
  [.fmJobStart, .fmJobRunning, .fmJobSuccess, .fmJobFailure]

def EVGROUP_ENSEMBLE : List EvType :=
  [.ensembleStarted, .ensembleStopped, .ensembleCancelled, .ensembleFailed]

/-- Modelled from the spec: `state.py` is not under `src/`; these are the
status strings its `JOB_STATE_*` constants hold, matching the values the
repo's own tests compare against ("Finished", "Running"). -/
def JOB_STATE_FINISHED : String := "Finished"

def JOB_STATE_FAILURE : String := "Failed"

/-- `_FM_TYPE_EVENT_TO_STATUS.get(e_type)` (status strings modelled from the
spec's §6 vocabulary; only `JOB_STATE_FINISHED`/`JOB_STATE_FAILURE` decide
the claims). -/
def fmTypeEventToStatus : EvType → Option String
  | .fmStepWaiting => some "Waiting"
  | .fmStepPending => some "Pending"
  | .fmStepRunning => some "Running"
  | .fmStepFailure => some JOB_STATE_FAILURE
  | .fmStepSuccess => some "Success"
  | .fmStepUnknown => some "Unknown"
  | .fmStepTimeout => some JOB_STATE_FAILURE
  | .fmJobStart => some "Start"
  | .fmJobRunning => some "Running"
  | .fmJobSuccess => some JOB_STATE_FINISHED
  | .fmJobFailure => some JOB_STATE_FAILURE
  | _ => none

/-- `_ENSEMBLE_TYPE_EVENT_TO_STATUS` (only consulted inside the ensemble
branch). -/
def ensembleTypeEventToStatus : EvType → Option String
  | .ensembleStarted => some "Started"
  | .ensembleStopped => some "Stopped"
  | .ensembleCancelled => some "Cancelled"
  | .ensembleFailed => some JOB_STATE_FAILURE
  | _ => none

/-- One CloudEvent as `from_cloudevent` reads it: the event type, the ids the
`_get_real_id`/`_get_step_id`/`_get_job_id`/`_get_job_index` regex helpers
extract from `source`, the timestamp (epoch-modelled), and the `data` pieces
each branch accesses. -/
structure CloudEventM where
  type : EvType
  real_id : String
  step_id : String
  job_id : String
  job_index : String
  time : ℤ
  dataStdout : Option String
  dataStderr : Option String
  dataErrorMsg : Option String
  dataRaw : Val

/-- One row of the `_job_states` table (its declared columns). -/
structure JobRow where
  status : Option String
  index : Option String
  start_time : Option ℤ
  end_time : Option ℤ
  error : Option String
  stdout : Option String
  stderr : Option String
  dataVal : Option Val

/-- The `PartialSnapshot` state touched by `from_cloudevent`: the job table,
the ensemble state, and the `_snapshot`/`_data` attributes — which `__init__`
never assigns, modelled as absent (`none`).  The realization and step tables
are never written by `from_cloudevent` (`update_step` is a stub) and carry no
claim-relevant state. -/
structure PSnapP where
  snapshotRef : Option Val
  dataRef : Option Val
  job_states : List ((String × String × String) × JobRow)
  ensemble_state : Option String

/-- `PartialSnapshot.__init__(a_ignored_snapshot)`: builds empty tables; the
argument is ignored and neither `self._snapshot` nor `self._data` is
assigned. -/
def PSnapP.init (_a_ignored_snapshot : Val) : PSnapP :=
  { snapshotRef := none, dataRef := none, job_states := [], ensemble_state := none }

/-- `self._job_states.loc[job_idx] = ...`: replace or add the row. -/
def jset : List ((String × String × String) × JobRow) → (String × String × String) →
    JobRow → List ((String × String × String) × JobRow)
  | [], key, row => [(key, row)]
  | (k, r) :: rest, key, row =>
    if k = key then (key, row) :: rest else (k, r) :: jset rest key row

/-- `update_job`: writes the row at `(real_id, step_id, job_id)`.  When the
index already exists the source updates the stored dict with `job.dict()`,
which (pydantic, no `exclude_none`) contains every column — the row is
overwritten either way. -/
def PSnapP.update_job (p : PSnapP) (real_id step_id job_id : String) (job : JobRow) :
    PSnapP :=
  { p with job_states := jset p.job_states (real_id, step_id, job_id) job }

/-- `update_step`: the source prints `ignoring step=...` and returns `self`
without touching any table. -/
def PSnapP.update_step (p : PSnapP) (_real_id _step_id : String)
    (_status : Option String) (_start_time _end_time : Option ℤ) : PSnapP :=
  p

/-- `update_status`: `self._ensemble_state = status`. -/
def PSnapP.update_status (p : PSnapP) (status : Option String) : PSnapP :=
  { p with ensemble_state := status }

/-- The failure modes of `from_cloudevent`: the reads of the never-assigned
`_snapshot`/`_data` attributes, `get_step`'s `ValueError`s, a malformed tree,
a failing `_recursive_update`, and the final `Unknown type` `ValueError`. -/
inductive SnapErr where
  | attributeMissingSnapshot
  | attributeMissingData
  | noSuchReal
  | noSuchStep
  | shapeError
  | mergeFailed (e : MergeErr)
  | unknownType
deriving DecidableEq, Repr

/-- `Snapshot.get_step(real_id, step_id).jobs` on the frozen snapshot data: a
missing realization or step raises `ValueError`; `Step.jobs` defaults to the
empty dict. -/
def getStepJobs (snapshot : Val) (real_id step_id : String) :
    Except SnapErr (List (String × Val)) :=
  match snapshot with
  | .vmap sm =>
    match aget sm "reals" with
    | some (.vmap reals) =>
      match aget reals real_id with
      | some (.vmap rm) =>
        match aget rm "steps" with
        | some (.vmap steps) =>
          match aget steps step_id with
          | some (.vmap stepm) =>
            match aget stepm "jobs" with
            | some (.vmap jobs) => .ok jobs
            | none => .ok []
            | _ => .error SnapErr.shapeError
          | none => .error SnapErr.noSuchStep
          | _ => .error SnapErr.shapeError
        | none => .error SnapErr.noSuchStep
        | _ => .error SnapErr.shapeError
      | none => .error SnapErr.noSuchReal
      | _ => .error SnapErr.shapeError
    | _ => .error SnapErr.shapeError
  | _ => .error SnapErr.shapeError

/-- The `status` field of a job read back from the snapshot tree. -/
def jobStatusOf (job : Val) : Option String :=
  match job with
  | .vmap jm =>
    match aget jm "status" with
    | some (.vstr s) => some s
    | _ => none
  | _ => none

/-- The error string the timeout branch stamps on unfinished jobs. -/
def timeoutJobError : String := "The run is cancelled due to reaching MAX_RUNTIME"

/-- `PartialSnapshot.from_cloudevent(event)`.  The method's first statement
reads `self._snapshot` (`if self._snapshot is None: raise ...`) — an
attribute `__init__` never created — so every call fails right there; the
never-reached branches are kept for reference.  (At Python level the
attribute read itself raises `AttributeError`; the source's own guard would
raise `UnsupportedOperationException`; both are `attributeMissingSnapshot`
here.) -/
def PSnapP.from_cloudevent (p : PSnapP) (event : CloudEventM) : Except SnapErr PSnapP :=
  let status := fmTypeEventToStatus event.type
  match p.snapshotRef with
  | none => .error SnapErr.attributeMissingSnapshot
  | some snapshot =>
    if event.type ∈ EVGROUP_FM_STEP then
      let start_time := if event.type = .fmStepRunning then some event.time else none
      let end_time :=
        if event.type ∈ [EvType.fmStepSuccess, EvType.fmStepFailure, EvType.fmStepTimeout]
        then some event.time else none
      let p1 := p.update_step event.real_id event.step_id status start_time end_time
      if event.type = .fmStepTimeout then
        match getStepJobs snapshot event.real_id event.step_id with
        | .error e => .error e
        | .ok jobs =>
          .ok (jobs.foldl (fun acc job =>
            if jobStatusOf job.2 ≠ some JOB_STATE_FINISHED then
              acc.update_job event.real_id event.step_id job.1
                { status := some JOB_STATE_FAILURE
                  index := some event.job_index
                  start_time := none
                  end_time := none
                  error := some timeoutJobError
                  stdout := none
                  stderr := none
                  dataVal := none }
            else acc) p1)
      else .ok p1
    else if event.type ∈ EVGROUP_FM_JOB then
      let start_time := if event.type = .fmJobStart then some event.time else none
      let end_time :=
        if event.type ∈ [EvType.fmJobSuccess, EvType.fmJobFailure]
        then some event.time else none
      .ok (p.update_job event.real_id event.step_id event.job_id
        { status := status
          index := some event.job_index
          start_time := start_time
          end_time := end_time
          error := if event.type = .fmJobFailure then event.dataErrorMsg else none
          stdout := if event.type = .fmJobStart then event.dataStdout else none
          stderr := if event.type = .fmJobStart then event.dataStderr else none
          dataVal := if event.type = .fmJobRunning then some event.dataRaw else none })
    else if event.type ∈ EVGROUP_ENSEMBLE then
      .ok (p.update_status (ensembleTypeEventToStatus event.type))
    else if event.type = .eeSnapshotUpdate then
      match p.dataRef with
      | none => .error SnapErr.attributeMissingData
      | some d =>
        match recUpdate false d event.dataRaw with
        | .error e => .error (SnapErr.mergeFailed e)
        | .ok d' => .ok { p with dataRef := some d' }
    else .error SnapErr.unknownType

/-! ### Claim C6 -/

/-- A snapshot holding real "0", step "0", a RUNNING job "0" and a FINISHED
job "1" — the scenario of the claim. -/
def snapC6 : Val :=
  .vmap [("status", .vstr "Unknown"),
    ("reals", .vmap [("0", .vmap [("status", .vstr "Unknown"),
      ("steps", .vmap [("0", .vmap [("status", .vstr "Unknown"),
        ("jobs", .vmap [
          ("0", .vmap [("status", .vstr "Running"), ("index", .vstr "0")]),
          ("1", .vmap [("status", .vstr "Finished"), ("index", .vstr "1")])])])])])])]

/-- The `FM_STEP_TIMEOUT` event for that step. -/
def evC6 : CloudEventM :=
  { type := .fmStepTimeout
    real_id := "0"
    step_id := "0"
    job_id := ""
    job_index := "0"
    time := 0
    dataStdout := none
    dataStderr := none
    dataErrorMsg := none
    dataRaw := .vmap [] }

/-- C6 counterexample: processing the claim's `FM_STEP_TIMEOUT` event on a
freshly constructed `PartialSnapshot` fails at the read of the never-assigned
`_snapshot` attribute — no step becomes FAILURE and no job is stamped, so the
claimed update does not happen. -/
theorem C6_counterexample :
    PSnapP.from_cloudevent (PSnapP.init snapC6) evC6
      = .error SnapErr.attributeMissingSnapshot := rfl

/-- C6 (amended): every `from_cloudevent` call on a `PartialSnapshot` as
constructed by `__init__` fails with the missing-snapshot error and performs
no update (`update_step` is in any case a no-op stub); the error string the
unreachable timeout branch would stamp is "The run is cancelled due to
reaching MAX_RUNTIME" (not "cancelled due to reaching MAX_RUNTIME"). -/
theorem C6_from_cloudevent_always_fails (snapshot : Val) (event : CloudEventM) :
    PSnapP.from_cloudevent (PSnapP.init snapshot) event
      = .error SnapErr.attributeMissingSnapshot ∧
    timeoutJobError = "The run is cancelled due to reaching MAX_RUNTIME" :=
  ⟨rfl, rfl⟩

end ErtSpec
